import Mathlib

/-!
The `go-api` lab server (`week-02/labs/lab-02-multistage-build/starter/main.go`).

The program is three HTTP handlers and a route table.  The handlers are embedded as
functions on an explicit `http.ResponseWriter` state and an explicit clock; the parts
of the Go standard library they call (`encoding/json`, `net/http`, `time`) are
embedded next to them, each definition carrying the name of the library function it
follows (Go 1.21, the version the program itself reports).

Left out: the log lines and the listening socket of `main`, request bodies that are not
text, patterns with a host part, and what the connection does with a response once the
handler has returned.

The definitions come first, then the lemmas, then one theorem for each claim about the
program, with its witness or counterexample.
-/

namespace GoApi

/-! ## `encoding/json`: string literals -/

/-- Go `hex` table of `encoding/json`: the lower-case digit of `n < 16`. -/
def hexDigit (n : Nat) : Char :=
  if n < 10 then Char.ofNat (48 + n) else Char.ofNat (87 + n)

/-- The `htmlSafeSet` table: the ASCII characters `appendString` copies unescaped when
`escapeHTML` is on (everything from the space on, except the quote, the backslash and
the three HTML characters). -/
def htmlSafeSet (c : Char) : Bool :=
  decide (32 ≤ c.toNat) && c != '"' && c != '\\' && c != '<' && c != '>' && c != '&'

/-- One iteration of the loop of `appendString` (`escapeHTML = true`) on a rune. -/
def appendRune (c : Char) : List Char :=
  if c.toNat < 128 then
    if htmlSafeSet c then [c]
    else if c = '\\' ∨ c = '"' then ['\\', c]
    else if c = '\n' then ['\\', 'n']
    else if c = '\r' then ['\\', 'r']
    else if c = '\t' then ['\\', 't']
    else ['\\', 'u', '0', '0', hexDigit (c.toNat / 16), hexDigit (c.toNat % 16)]
  else if c = Char.ofNat 0x2028 ∨ c = Char.ofNat 0x2029 then
    ['\\', 'u', '2', '0', '2', hexDigit (c.toNat % 16)]
  else [c]

/-- The escaped text `appendString` writes between the two quotes. -/
def escapeString : List Char → List Char
  | [] => []
  | c :: cs => appendRune c ++ escapeString cs

/-- Go `appendString(dst, src, true)`: the JSON string literal of `s`. -/
def appendString (s : String) : String :=
  ⟨'"' :: (escapeString s.data ++ ['"'])⟩

/-- Value of a hexadecimal digit, either case (the digit test of `stateInStringEscU`
and the digit value of `getu4`). -/
def hexVal (c : Char) : Option Nat :=
  let n := c.toNat
  if 48 ≤ n ∧ n ≤ 57 then some (n - 48)
  else if 97 ≤ n ∧ n ≤ 102 then some (n - 87)
  else if 65 ≤ n ∧ n ≤ 70 then some (n - 55)
  else none

/-- Go `utf16.IsSurrogate`. -/
def isSurrogate (r : Nat) : Bool := decide (0xd800 ≤ r ∧ r < 0xe000)

/-- Go `utf16.DecodeRune`: the code point of a surrogate pair, `none` where Go returns
the replacement character. -/
def decodeSurrogates (r1 r2 : Nat) : Option Nat :=
  if 0xd800 ≤ r1 ∧ r1 < 0xdc00 ∧ 0xdc00 ≤ r2 ∧ r2 < 0xe000 then
    some ((r1 - 0xd800) * 1024 + (r2 - 0xdc00) + 0x10000)
  else none

/-- The replacement character U+FFFD. -/
def replacementChar : Char := Char.ofNat 0xfffd

/-- The single-character escapes the scanner accepts after a backslash
(`stateInStringEsc`), with the character `unquote` stores for each. -/
def unescape (c : Char) : Option Char :=
  if c = '"' then some '"'
  else if c = '\\' then some '\\'
  else if c = '/' then some '/'
  else if c = 'b' then some (Char.ofNat 8)
  else if c = 'f' then some (Char.ofNat 12)
  else if c = 'n' then some '\n'
  else if c = 'r' then some '\r'
  else if c = 't' then some '\t'
  else none

/-- One unit of a scanned string literal: a character (written as itself or by a
single-character escape) or the 16-bit value of a `\uXXXX` escape. -/
inductive StrUnit where
  | char (c : Char)
  | esc (code : Nat)
  deriving DecidableEq, Repr

/-- Prepend a unit to the result of scanning the rest of a literal. -/
def consUnit (u : StrUnit) :
    Option (List StrUnit × List Char) → Option (List StrUnit × List Char)
  | some (s, rest) => some (u :: s, rest)
  | none => none

/-- The scanner states inside a string literal: `stateInString`, `stateInStringEsc`,
and `stateInStringEscU` to `stateInStringEscU123` with the number of hex digits read
after the `u` and their value so far. -/
inductive StrState where
  | inString
  | inStringEsc
  | inStringEscU (seen : Nat) (value : Nat)
  deriving DecidableEq, Repr

/-- The scanner on a string literal, one character a step, from the given state.
Returns the units of the literal and the input after the closing quote; `none` is a
syntax error or the end of the input inside the literal. -/
def scanStringFrom : StrState → List Char → Option (List StrUnit × List Char)
  | _, [] => none
  | .inString, c :: rest =>
    if c = '"' then some ([], rest)
    else if c = '\\' then scanStringFrom .inStringEsc rest
    else if c.toNat < 32 then none
    else consUnit (.char c) (scanStringFrom .inString rest)
  | .inStringEsc, c :: rest =>
    if c = 'u' then scanStringFrom (.inStringEscU 0 0) rest
    else
      match unescape c with
      | some ch => consUnit (.char ch) (scanStringFrom .inString rest)
      | none => none
  | .inStringEscU seen value, c :: rest =>
    match hexVal c with
    | none => none
    | some v =>
      if seen < 3 then scanStringFrom (.inStringEscU (seen + 1) (value * 16 + v)) rest
      else consUnit (.esc (value * 16 + v)) (scanStringFrom .inString rest)

/-- The scanner on a string literal, from just after its opening quote. -/
def scanString (input : List Char) : Option (List StrUnit × List Char) :=
  scanStringFrom .inString input

/-- Go `unquote` on the units of a scanned literal: a `\u` escape that is a surrogate
is joined with a directly following `\u` escape when the two form a valid pair, and is
replaced by U+FFFD otherwise. -/
def unquote : List StrUnit → List Char
  | [] => []
  | .char c :: rest => c :: unquote rest
  | [.esc rr] => [if isSurrogate rr then replacementChar else Char.ofNat rr]
  | .esc rr :: .char c :: rest =>
    (if isSurrogate rr then replacementChar else Char.ofNat rr) :: c :: unquote rest
  | .esc rr :: .esc rr1 :: rest =>
    if isSurrogate rr then
      match decodeSurrogates rr rr1 with
      | some dec => Char.ofNat dec :: unquote rest
      | none => replacementChar :: unquote (.esc rr1 :: rest)
    else Char.ofNat rr :: unquote (.esc rr1 :: rest)

/-- A string literal from just after its opening quote: its value and the input after
the closing quote. -/
def readString (input : List Char) : Option (String × List Char) :=
  match scanString input with
  | some (units, rest) => some (⟨unquote units⟩, rest)
  | none => none

/-! ## `encoding/json`: values -/

/-- A JSON value as `Decoder.Decode` reads it; a number keeps its literal text. -/
inductive JValue where
  | null
  | bool (b : Bool)
  | number (lit : String)
  | string (s : String)
  | array (items : List JValue)
  | object (members : List (String × JValue))

/-- Why no value was read: `invalid` stands for every error of Go's scanner (syntax
error, nesting too deep, `io.EOF`, `io.ErrUnexpectedEOF`); `fuel` is the recursion
bound of this embedding running out, which `readValue` never reports
(`readValue_ne_fuel`). -/
inductive ScanError where
  | invalid
  | fuel
  deriving DecidableEq, Repr

/-- Go `isSpace` of the scanner: space, tab, carriage return, line feed. -/
def isSpace (c : Char) : Bool := c == ' ' || c == '\t' || c == '\r' || c == '\n'

/-- The scanner skipping white space (`scanSkipSpace`). -/
def skipSpace : List Char → List Char
  | [] => []
  | c :: rest => if isSpace c then skipSpace rest else c :: rest

/-- Go `maxNestingDepth`: how many arrays and objects may be open at once. -/
def maxNestingDepth : Nat := 10000

/-- Decimal digit test (`'0' <= c && c <= '9'`). -/
def isDigit (c : Char) : Bool := decide (48 ≤ c.toNat ∧ c.toNat ≤ 57)

/-- The longest run of digits at the head of the input, and what follows it. -/
def takeDigits : List Char → List Char × List Char
  | [] => ([], [])
  | c :: rest =>
    if isDigit c then ((takeDigits rest).1.cons c, (takeDigits rest).2) else ([], c :: rest)

/-- Scanner states `stateE`, `stateESign`, `stateE0`: an optional exponent. -/
def scanExponent (acc input : List Char) : Option (List Char × List Char) :=
  match input with
  | e :: rest =>
    if e = 'e' ∨ e = 'E' then
      match rest with
      | sg :: rest1 =>
        if sg = '+' ∨ sg = '-' then
          if (takeDigits rest1).1 = [] then none
          else some (acc ++ e :: sg :: (takeDigits rest1).1, (takeDigits rest1).2)
        else if (takeDigits rest).1 = [] then none
        else some (acc ++ e :: (takeDigits rest).1, (takeDigits rest).2)
      | [] => none
    else some (acc, input)
  | [] => some (acc, input)

/-- Scanner states `stateDot`, `stateDot0`: an optional fraction, then the exponent. -/
def scanFraction (acc input : List Char) : Option (List Char × List Char) :=
  match input with
  | d :: rest =>
    if d = '.' then
      if (takeDigits rest).1 = [] then none
      else scanExponent (acc ++ '.' :: (takeDigits rest).1) (takeDigits rest).2
    else scanExponent acc input
  | [] => some (acc, input)

/-- Scanner states `state0` and `state1` onwards, from the first digit. -/
def scanDigits (acc input : List Char) : Option (List Char × List Char) :=
  match input with
  | c :: rest =>
    if c = '0' then scanFraction (acc ++ ['0']) rest
    else if isDigit c then scanFraction (acc ++ c :: (takeDigits rest).1) (takeDigits rest).2
    else none
  | [] => none

/-- A number literal (`stateNeg`, `state0`, `state1`, ...): its text and what follows.
The literal ends before the first character that cannot extend it. -/
def scanNumber (input : List Char) : Option (List Char × List Char) :=
  match input with
  | c :: rest => if c = '-' then scanDigits ['-'] rest else scanDigits [] input
  | [] => none

/-- The rest of the input after the exact text `lit` (`stateT` ... `stateNul`). -/
def scanLiteral : List Char → List Char → Option (List Char)
  | [], input => some input
  | _ :: _, [] => none
  | l :: lit, c :: input => if l = c then scanLiteral lit input else none

mutual

/-- One JSON value from the head of the input, after optional white space
(`stateBeginValue`), with `depth` arrays and objects open around it.  Returns the
value and the input after its last character. -/
def parseValue : Nat → Nat → List Char → Except ScanError (JValue × List Char)
  | 0, _, _ => .error .fuel
  | fuel + 1, depth, input =>
    match skipSpace input with
    | [] => .error .invalid
    | c :: rest =>
      if c = '\x7b' then
        if maxNestingDepth ≤ depth then .error .invalid
        else
          match skipSpace rest with
          | [] => .error .invalid
          | c1 :: rest1 =>
            if c1 = '\x7d' then .ok (.object [], rest1)
            else parseMembers fuel (depth + 1) [] (c1 :: rest1)
      else if c = '[' then
        if maxNestingDepth ≤ depth then .error .invalid
        else
          match skipSpace rest with
          | [] => .error .invalid
          | c1 :: rest1 =>
            if c1 = ']' then .ok (.array [], rest1)
            else parseElements fuel (depth + 1) [] (c1 :: rest1)
      else if c = '"' then
        match readString rest with
        | some (s, rest1) => .ok (.string s, rest1)
        | none => .error .invalid
      else if c = '-' ∨ isDigit c then
        match scanNumber (c :: rest) with
        | some (lit, rest1) => .ok (.number ⟨lit⟩, rest1)
        | none => .error .invalid
      else if c = 't' then
        match scanLiteral ['r', 'u', 'e'] rest with
        | some rest1 => .ok (.bool true, rest1)
        | none => .error .invalid
      else if c = 'f' then
        match scanLiteral ['a', 'l', 's', 'e'] rest with
        | some rest1 => .ok (.bool false, rest1)
        | none => .error .invalid
      else if c = 'n' then
        match scanLiteral ['u', 'l', 'l'] rest with
        | some rest1 => .ok (.null, rest1)
        | none => .error .invalid
      else .error .invalid

/-- The members of an object from a key on (`stateBeginString`), `acc` holding the
members already read, last first. -/
def parseMembers :
    Nat → Nat → List (String × JValue) → List Char → Except ScanError (JValue × List Char)
  | 0, _, _, _ => .error .fuel
  | fuel + 1, depth, acc, input =>
    match skipSpace input with
    | [] => .error .invalid
    | q :: rest =>
      if q = '"' then
        match readString rest with
        | none => .error .invalid
        | some (key, rest1) =>
          match skipSpace rest1 with
          | [] => .error .invalid
          | colon :: rest2 =>
            if colon = ':' then
              match parseValue fuel depth rest2 with
              | .error e => .error e
              | .ok (v, rest3) =>
                match skipSpace rest3 with
                | [] => .error .invalid
                | sep :: rest4 =>
                  if sep = ',' then parseMembers fuel depth ((key, v) :: acc) rest4
                  else if sep = '\x7d' then .ok (.object ((key, v) :: acc).reverse, rest4)
                  else .error .invalid
            else .error .invalid
      else .error .invalid

/-- The elements of an array from a value on, `acc` holding the elements already
read, last first. -/
def parseElements :
    Nat → Nat → List JValue → List Char → Except ScanError (JValue × List Char)
  | 0, _, _, _ => .error .fuel
  | fuel + 1, depth, acc, input =>
    match parseValue fuel depth input with
    | .error e => .error e
    | .ok (v, rest) =>
      match skipSpace rest with
      | [] => .error .invalid
      | sep :: rest1 =>
        if sep = ',' then parseElements fuel depth (v :: acc) rest1
        else if sep = ']' then .ok (.array (v :: acc).reverse, rest1)
        else .error .invalid

end

/-- Go `Decoder.readValue` on a fresh decoder: the first JSON value of the stream and
the input left after it.  What follows the value is not looked at. -/
def readValue (body : String) : Except ScanError (JValue × List Char) :=
  parseValue (2 * body.data.length + 2) 0 body.data

/-! ## `encoding/json`: decoding into `EchoRequest` -/

/-- The request record of `main.go`: `type EchoRequest struct { Message string }`. -/
structure EchoRequest where
  Message : String
  deriving DecidableEq, Repr

/-- Go `foldName` as far as it decides equality with an ASCII field name: ASCII letters
go to upper case and the two runes outside ASCII whose case-folding orbit holds an
ASCII letter (U+017F with `S`, U+212A with `K`) go to that letter.  `foldRune` sends
every other rune outside ASCII to a rune outside ASCII, so it is left as it is. -/
def foldName (name : List Char) : List Char :=
  name.map fun c =>
    if 97 ≤ c.toNat ∧ c.toNat ≤ 122 then Char.ofNat (c.toNat - 32)
    else if c.toNat = 0x17f then 'S'
    else if c.toNat = 0x212a then 'K'
    else c

/-- Field lookup of `decodeState.object` for `EchoRequest` (`byExactName`, then
`byFoldedName`): does the key name the field tagged `json:"message"`? -/
def isMessageKey (key : String) : Bool :=
  key == "message" || foldName key.data == foldName "message".data

/-- The error `Decode` returns: what the scanner reports, or the
`UnmarshalTypeError` that `decodeState.saveError` kept. -/
inductive DecodeError where
  | scan (e : ScanError)
  | unmarshalType (value : String)
  deriving DecidableEq, Repr

/-- The state `decodeState` carries while it stores a value: the record being filled
and the first saved error. -/
abbrev DecodeState := EchoRequest × Option DecodeError

/-- Go `decodeState.saveError`: only the first error is kept. -/
def saveError (st : DecodeState) (e : DecodeError) : DecodeState :=
  match st.2 with
  | none => (st.1, some e)
  | some _ => st

/-- One member of an object stored by `decodeState.object`: a key that names no field
is skipped with its value; for the field `Message` (`literalStore` on a `string`) a
string is stored, `null` changes nothing, any other value saves an
`UnmarshalTypeError` and decoding goes on. -/
def storeMember (st : DecodeState) (member : String × JValue) : DecodeState :=
  if isMessageKey member.1 then
    match member.2 with
    | .string s => ({ Message := s }, st.2)
    | .null => st
    | .bool _ => saveError st (.unmarshalType "bool")
    | .number _ => saveError st (.unmarshalType "number")
    | .array _ => saveError st (.unmarshalType "array")
    | .object _ => saveError st (.unmarshalType "object")
  else st

/-- Go `decodeState.value` on a pointer to an `EchoRequest`: an object is stored member
by member, `null` changes nothing, every other value is an `UnmarshalTypeError`. -/
def storeValue (v : JValue) (req : EchoRequest) : DecodeState :=
  match v with
  | .object members => members.foldl storeMember (req, none)
  | .null => (req, none)
  | .bool _ => (req, some (.unmarshalType "bool"))
  | .number _ => (req, some (.unmarshalType "number"))
  | .string _ => (req, some (.unmarshalType "string"))
  | .array _ => (req, some (.unmarshalType "array"))

/-- Go `json.NewDecoder(body).Decode(&req)`: read the first value of the body, then
store it; the record as the call leaves it and the error returned. -/
def Decode (body : String) (req : EchoRequest) : DecodeState :=
  match readValue body with
  | .error e => (req, some (.scan e))
  | .ok (v, _) => storeValue v req

/-- The request shape the specification documents, `{message: string}`, read
literally: the whole body is one JSON object, and it has a member `message` whose
value is a string. -/
def matchesDocumentedShape (body : String) : Bool :=
  match readValue body with
  | .ok (.object members, rest) =>
    skipSpace rest == [] &&
      members.any fun kv =>
        kv.1 == "message" && (match kv.2 with | .string _ => true | _ => false)
  | _ => false

/-- The values `literalStore` puts into the `string` field `Message` without an
error: a string, and `null`, which leaves the field as it is. -/
def fitsMessage : JValue → Bool
  | .string _ => true
  | .null => true
  | _ => false

/-- The values `Decode` stores into an `EchoRequest` without an error: `null`, and
an object in which every member that names the field `Message` holds a string or
`null`. -/
def storable : JValue → Bool
  | .null => true
  | .object members => members.all fun kv => !isMessageKey kv.1 || fitsMessage kv.2
  | _ => false

/-- The bodies `echoHandler` answers with 200: those that start, after optional white
space, with a complete JSON value that is `storable`. -/
def accepted (body : String) : Bool :=
  match readValue body with
  | .ok (v, _) => storable v
  | .error _ => false

/-! ## `time` -/

/-- A reading of `time.Now()`: the instant in nanoseconds since the Unix epoch and the
offset of the local zone in seconds east of UTC.  The instant is within what the wall
clock of the system can hold (`Time.UnixNano`, an `int64`), the offset within a day. -/
structure Time where
  unixNano : Nat
  offset : Int
  inRange : unixNano < 2 ^ 63 ∧ -86400 < offset ∧ offset < 86400
  deriving DecidableEq

/-- Instants are ordered as `Time.Before` and `Time.After` order them. -/
instance : LE Time := ⟨fun a b => a.unixNano ≤ b.unixNano⟩

instance (a b : Time) : Decidable (a ≤ b) :=
  inferInstanceAs (Decidable (a.unixNano ≤ b.unixNano))

/-- The decimal digit of `n % 10`. -/
def digitChar (n : Nat) : Char := Char.ofNat (48 + n % 10)

/-- Go `appendInt(b, x, width)` for `x < 10 ^ width`: exactly `width` digits. -/
def appendInt : Nat → Nat → List Char
  | _, 0 => []
  | x, width + 1 => appendInt (x / 10) width ++ [digitChar x]

/-- Civil date of a day number counted from 1970-01-01 in the proleptic Gregorian
calendar (the year, month and day of `absDate`), for days from 1969-12-31 on. -/
def civilDate (days : Int) : Nat × Nat × Nat :=
  let z := (days + 719468).toNat
  let era := z / 146097
  let doe := z % 146097
  let yoe := (doe - doe / 1460 + doe / 36524 - doe / 146096) / 365
  let doy := doe - (365 * yoe + yoe / 4 - yoe / 100)
  let mp := (5 * doy + 2) / 153
  let d := doy - (153 * mp + 2) / 5 + 1
  let m := if mp < 10 then mp + 3 else mp - 9
  (if m ≤ 2 then yoe + era * 400 + 1 else yoe + era * 400, m, d)

/-- Drop the trailing zeros of a digit string (the trimming loop of `appendNano`). -/
def trimZeros (ds : List Char) : List Char :=
  (ds.reverse.dropWhile (fun c => c == '0')).reverse

/-- Go `appendNano` for the layout `.999999999`: nothing for a whole second, else the
point and the nine digits without their trailing zeros. -/
def appendNano (nanosec : Nat) : List Char :=
  if nanosec = 0 then [] else '.' :: trimZeros (appendInt nanosec 9)

/-- The zone suffix of `appendFormatRFC3339`: `Z` for UTC, else sign, hours, minutes. -/
def appendZone (offset : Int) : List Char :=
  if offset = 0 then ['Z']
  else
    let zone := Int.tdiv offset 60
    (if zone < 0 then '-' else '+')
      :: (appendInt (zone.natAbs / 60) 2 ++ ':' :: appendInt (zone.natAbs % 60) 2)

/-- Go `Time.appendStrictRFC3339` as `Time.MarshalJSON` uses it (layout `RFC3339Nano`):
the text, or `none` where Go returns the error "year outside of range [0,9999]" or
"timezone hour outside of range [0,23]". -/
def appendStrictRFC3339 (t : Time) : Option (List Char) :=
  let abs : Int := (t.unixNano / 1000000000 : Nat) + t.offset
  let date := civilDate (abs / 86400)
  let sod := (abs % 86400).toNat
  let zone := Int.tdiv t.offset 60
  if 10000 ≤ date.1 then none
  else if 24 ≤ zone.natAbs / 60 then none
  else
    some (appendInt date.1 4 ++ '-' :: appendInt date.2.1 2 ++ '-' :: appendInt date.2.2 2
      ++ 'T' :: appendInt (sod / 3600) 2 ++ ':' :: appendInt (sod / 60 % 60) 2
      ++ ':' :: appendInt (sod % 60) 2
      ++ appendNano (t.unixNano % 1000000000) ++ appendZone t.offset)

/-- Go `Time.MarshalJSON`: the RFC 3339 text between quotes, or an error. -/
def Time.MarshalJSON (t : Time) : Option String :=
  match appendStrictRFC3339 t with
  | some text => some ⟨'"' :: (text ++ ['"'])⟩
  | none => none

/-- The RFC 3339 text of a reading, as a string (empty where Go reports an error). -/
def Time.text (t : Time) : String := ⟨(appendStrictRFC3339 t).getD []⟩

/-! ## `encoding/json`: encoding the response records -/

/-- The record of `main.go`: `HealthResponse`. -/
structure HealthResponse where
  Status : String
  Timestamp : Time
  deriving DecidableEq

/-- The record of `main.go`: `InfoResponse`. -/
structure InfoResponse where
  Service : String
  Version : String
  Go : String
  deriving DecidableEq, Repr

/-- The record of `main.go`: `EchoResponse`. -/
structure EchoResponse where
  Original : String
  Echo : String
  Timestamp : Time
  deriving DecidableEq

/-- The text between the braces of an encoded struct: each field as its quoted JSON
name, a colon and its encoded value, with commas between the fields. -/
def encodeFields : List (String × String) → List Char
  | [] => []
  | [f] => '"' :: (f.1.data ++ '"' :: ':' :: f.2.data)
  | f :: g :: fs => '"' :: (f.1.data ++ '"' :: ':' :: (f.2.data ++ ',' :: encodeFields (g :: fs)))

/-- The struct encoder of `encoding/json`: the fields in declaration order between
braces. -/
def structEncoder (fields : List (String × String)) : String :=
  ⟨'\x7b' :: (encodeFields fields ++ ['\x7d'])⟩

/-- Go `json.Marshal` on a `HealthResponse` (tags `status`, `timestamp`); `none` when
`Time.MarshalJSON` fails.  The text of `Time.MarshalJSON` is copied as it is (`compact`
changes nothing in it). -/
def HealthResponse.marshal (v : HealthResponse) : Option String :=
  match v.Timestamp.MarshalJSON with
  | some ts => some (structEncoder [("status", appendString v.Status), ("timestamp", ts)])
  | none => none

/-- Go `json.Marshal` on an `InfoResponse` (tags `service`, `version`, `go_version`). -/
def InfoResponse.marshal (v : InfoResponse) : Option String :=
  some (structEncoder [("service", appendString v.Service),
    ("version", appendString v.Version), ("go_version", appendString v.Go)])

/-- Go `json.Marshal` on an `EchoResponse` (tags `original`, `echo`, `timestamp`);
`none` when `Time.MarshalJSON` fails. -/
def EchoResponse.marshal (v : EchoResponse) : Option String :=
  match v.Timestamp.MarshalJSON with
  | some ts =>
    some (structEncoder [("original", appendString v.Original),
      ("echo", appendString v.Echo), ("timestamp", ts)])
  | none => none

/-- Go `json.Marshal` on an `EchoRequest` (tag `message`): the body a Go client posts. -/
def EchoRequest.marshal (v : EchoRequest) : String :=
  structEncoder [("message", appendString v.Message)]

/-! ## `net/http`: requests, the response writer, `http.Error` -/

/-- Go `http.Header` with the keys in canonical form, as every key of this program is. -/
abbrev Header := List (String × String)

/-- Go `Header.Set`. -/
def Header.Set (h : Header) (key value : String) : Header :=
  (key, value) :: h.filter (fun kv => kv.1 != key)

/-- Go `Header.Get`: the value of a key, empty when absent. -/
def Header.Get (h : Header) (key : String) : String :=
  match h.find? (fun kv => kv.1 == key) with
  | some kv => kv.2
  | none => ""

/-- The fields of `http.Request` that the handlers and the route table read, and the
header of the request, which none of them reads: `Path` is `URL.Path`, `RawQuery` is
`URL.RawQuery`, and `Body` is the text read from the request body (a body is taken to
be text, a sequence of Unicode characters). -/
structure Request where
  Method : String
  RequestURI : String
  ProtoMajor : Nat
  ProtoMinor : Nat
  Path : String
  RawQuery : String
  Header : Header
  Body : String
  deriving DecidableEq, Repr

/-- Go `http.StatusOK`. -/
def StatusOK : Nat := 200
/-- Go `http.StatusMovedPermanently`. -/
def StatusMovedPermanently : Nat := 301
/-- Go `http.StatusBadRequest`. -/
def StatusBadRequest : Nat := 400
/-- Go `http.StatusMethodNotAllowed`. -/
def StatusMethodNotAllowed : Nat := 405
/-- Go `http.MethodPost`. -/
def MethodPost : String := "POST"

/-- State of an `http.ResponseWriter` that records what a handler sends: the header
map the handler edits, and from the first `WriteHeader` on the status code and the
header map as it stood then, with the body written so far.  What the connection of
the server adds afterwards (`Date`, `Content-Length`, no body in a reply to `HEAD`) is
not part of what a handler does and is left out. -/
structure ResponseWriter where
  handlerHeader : Header
  wroteHeader : Bool
  status : Nat
  header : Header
  body : String
  deriving DecidableEq, Repr

/-- The writer a handler is started with. -/
def ResponseWriter.new : ResponseWriter :=
  { handlerHeader := [], wroteHeader := false, status := 0, header := [], body := "" }

/-- The call `w.Header().Set(key, value)`. -/
def ResponseWriter.SetHeader (w : ResponseWriter) (key value : String) : ResponseWriter :=
  { w with handlerHeader := w.handlerHeader.Set key value }

/-- Go `ResponseWriter.WriteHeader`: the first call fixes the status code and the
header map; a later call changes nothing. -/
def ResponseWriter.WriteHeader (w : ResponseWriter) (code : Nat) : ResponseWriter :=
  if w.wroteHeader then w
  else { w with wroteHeader := true, status := code, header := w.handlerHeader }

/-- Go `ResponseWriter.Write`: an implicit `WriteHeader(200)` before the first byte. -/
def ResponseWriter.Write (w : ResponseWriter) (data : String) : ResponseWriter :=
  let w1 := w.WriteHeader StatusOK
  { w1 with body := w1.body ++ data }

/-- The response a client is sent. -/
structure Response where
  status : Nat
  header : Header
  body : String
  deriving DecidableEq, Repr

/-- The response once the handler has returned; a handler that never wrote sends 200
with the header map as it left it. -/
def ResponseWriter.Result (w : ResponseWriter) : Response :=
  if w.wroteHeader then { status := w.status, header := w.header, body := w.body }
  else { status := 200, header := w.handlerHeader, body := w.body }

/-- Go `http.Error`: sets `Content-Type` to plain text over whatever was there, sets
`X-Content-Type-Options`, writes the status code and the message with a line feed. -/
def Error (w : ResponseWriter) (error : String) (code : Nat) : ResponseWriter :=
  let w1 := w.SetHeader "Content-Type" "text/plain; charset=utf-8"
  let w2 := w1.SetHeader "X-Content-Type-Options" "nosniff"
  (w2.WriteHeader code).Write (error ++ "\n")

/-- Go `json.NewEncoder(w).Encode(v)` given the outcome of marshalling `v`: the
encoding and a line feed in one `Write`, or nothing at all when marshalling failed. -/
def Encode (w : ResponseWriter) (marshalled : Option String) : ResponseWriter :=
  match marshalled with
  | some b => w.Write (b ++ "\n")
  | none => w

/-! ## The clock -/

/-- The system clock as the handlers see it: the readings `time.Now()` returns, in the
order of the calls, and the number of calls made so far. -/
structure Clock where
  tick : Nat → Time
  reads : Nat

/-- Go `time.Now()`: the next reading, and the clock after the call. -/
def Clock.Now (clk : Clock) : Time × Clock :=
  (clk.tick clk.reads, { clk with reads := clk.reads + 1 })

/-- The type of `healthHandler`, `infoHandler` and `echoHandler`, with the writer and
the clock passed through. -/
abbrev HandlerFunc := ResponseWriter → Request → Clock → ResponseWriter × Clock

/-- `healthHandler` of `main.go`. -/
def healthHandler : HandlerFunc := fun w _r clk =>
  let w1 := w.SetHeader "Content-Type" "application/json"
  let now := clk.Now
  let response : HealthResponse := { Status := "healthy", Timestamp := now.1 }
  (Encode w1 response.marshal, now.2)

/-- `infoHandler` of `main.go`. -/
def infoHandler : HandlerFunc := fun w _r clk =>
  let w1 := w.SetHeader "Content-Type" "application/json"
  let response : InfoResponse := { Service := "go-api", Version := "1.0.0", Go := "1.21" }
  (Encode w1 response.marshal, clk)

/-- `echoHandler` of `main.go`; `fmt.Sprintf("Echo: %s", m)` is `"Echo: " ++ m`. -/
def echoHandler : HandlerFunc := fun w r clk =>
  if r.Method ≠ MethodPost then
    (Error w "Method not allowed" StatusMethodNotAllowed, clk)
  else
    let w1 := w.SetHeader "Content-Type" "application/json"
    let decoded := Decode r.Body { Message := "" }
    if decoded.2.isSome then
      (Error w1 "Invalid JSON" StatusBadRequest, clk)
    else
      let now := clk.Now
      let response : EchoResponse :=
        { Original := decoded.1.Message
          Echo := "Echo: " ++ decoded.1.Message
          Timestamp := now.1 }
      (Encode w1 response.marshal, now.2)

/-- One request served by a handler on a fresh writer: the response sent. -/
def respond (h : HandlerFunc) (r : Request) (clk : Clock) : Response :=
  (h ResponseWriter.new r clk).1.Result

/-- One request served by a handler: the number of `time.Now()` calls it made. -/
def clockReads (h : HandlerFunc) (r : Request) (clk : Clock) : Nat :=
  (h ResponseWriter.new r clk).2.reads - clk.reads

/-- A request with the given method, path and body (HTTP/1.1, no query, a JSON
content type in its header). -/
def Request.make (method path body : String) : Request :=
  { Method := method, RequestURI := path, ProtoMajor := 1, ProtoMinor := 1,
    Path := path, RawQuery := "", Header := [("Content-Type", "application/json")],
    Body := body }

/-- A clock whose first thousand readings are one second apart, from
2023-11-14T22:13:20Z on, and that stands still afterwards. -/
def Clock.sample : Clock :=
  { tick := fun i => ⟨1700000000000000000 + min i 1000 * 1000000000, 0, by omega⟩
    reads := 0 }

/-- The request body `{"message":"hi"}`. -/
def helloBody : String := "\x7b\"message\":\"hi\"\x7d"

/-- The response body `{"original":"hi","echo":"Echo: hi","timestamp":"<stamp>"}` with
the line feed that ends it. -/
def helloReply (stamp : String) : String :=
  "\x7b\"original\":\"hi\",\"echo\":\"Echo: hi\",\"timestamp\":\"" ++ stamp ++ "\"\x7d\n"

/-! ## `net/http`: the route table (`ServeMux`) -/

/-- The path split at every slash. -/
def splitSlash : List Char → List (List Char)
  | [] => [[]]
  | c :: rest =>
    if c = '/' then [] :: splitSlash rest
    else
      match splitSlash rest with
      | seg :: segs => (c :: seg) :: segs
      | [] => [[c]]

/-- The elements `path.Clean` keeps of a rooted path: empty and `.` elements are
dropped, `..` drops the element before it (and itself at the root).  `kept` holds the
elements kept so far, last first. -/
def cleanElements (kept : List (List Char)) : List (List Char) → List (List Char)
  | [] => kept.reverse
  | seg :: rest =>
    if seg = [] ∨ seg = ['.'] then cleanElements kept rest
    else if seg = ['.', '.'] then cleanElements kept.tail rest
    else cleanElements (seg :: kept) rest

/-- Go `path.Clean` on a rooted path. -/
def pathClean (p : List Char) : List Char :=
  '/' :: ['/'].intercalate (cleanElements [] (splitSlash p))

/-- Go `cleanPath` of `net/http`: the canonical form of a request path, a trailing
slash kept. -/
def cleanPath (p : String) : String :=
  match p.data with
  | [] => "/"
  | c :: rest =>
    let rooted := if c = '/' then c :: rest else '/' :: c :: rest
    let np := pathClean rooted
    if rooted.getLast? = some '/' ∧ np ≠ ['/'] then ⟨np ++ ['/']⟩ else ⟨np⟩

/-- UTF-8 bytes of a character. -/
def utf8Bytes (c : Char) : List Nat :=
  let n := c.toNat
  if n < 0x80 then [n]
  else if n < 0x800 then [0xc0 + n / 64, 0x80 + n % 64]
  else if n < 0x10000 then [0xe0 + n / 4096, 0x80 + n / 64 % 64, 0x80 + n % 64]
  else [0xf0 + n / 262144, 0x80 + n / 4096 % 64, 0x80 + n / 64 % 64, 0x80 + n % 64]

/-- Upper-case hexadecimal digit (`upperhex` of `net/url`). -/
def upperHex (n : Nat) : Char :=
  if n < 10 then Char.ofNat (48 + n) else Char.ofNat (55 + n)

/-- Go `shouldEscape(c, encodePath)` of `net/url`. -/
def shouldEscape (b : Nat) : Bool :=
  if (97 ≤ b ∧ b ≤ 122) ∨ (65 ≤ b ∧ b ≤ 90) ∨ (48 ≤ b ∧ b ≤ 57) then false
  else if b ∈ [45, 95, 46, 126] then false
  else if b ∈ [36, 38, 43, 44, 47, 58, 59, 61, 64] then false
  else true

/-- Go `escape(s, encodePath)` of `net/url`, byte by byte. -/
def escapePath (p : List Char) : List Char :=
  (p.flatMap utf8Bytes).flatMap fun b =>
    if shouldEscape b then ['%', upperHex (b / 16), upperHex (b % 16)] else [Char.ofNat b]

/-- Go `(&url.URL{Path: path, RawQuery: query}).String()` for a path that starts with
a slash. -/
def urlString (path query : String) : String :=
  ⟨escapePath path.data⟩ ++ (if query = "" then "" else "?" ++ query)

/-- The handlers a `ServeMux` hands out: a registered function (`HandlerFunc`), a
`RedirectHandler`, or the `NotFoundHandler`. -/
inductive Handler where
  | func (f : HandlerFunc)
  | redirect (url : String) (code : Nat)
  | notFound

/-- Go `ServeMux` for patterns without a host part: `m` is the map from pattern to
handler, `es` the entries whose pattern ends in a slash, longest first. -/
structure ServeMux where
  m : List (String × HandlerFunc)
  es : List (String × HandlerFunc)

/-- Go `ServeMux.match`: an exact match first, then the longest pattern ending in a
slash that the path starts with. -/
def ServeMux.match (mux : ServeMux) (path : String) : Option (HandlerFunc × String) :=
  match mux.m.find? (fun e => e.1 == path) with
  | some e => some (e.2, e.1)
  | none =>
    match mux.es.find? (fun e => e.1.data.isPrefixOf path.data) with
    | some e => some (e.2, e.1)
    | none => none

/-- Go `ServeMux.handler`: the matching handler, or `NotFoundHandler` with an empty
pattern. -/
def ServeMux.handler (mux : ServeMux) (path : String) : Handler × String :=
  match mux.match path with
  | some (h, pattern) => (.func h, pattern)
  | none => (.notFound, "")

/-- Go `ServeMux.shouldRedirectRLocked`: the path itself is not registered and the
path with a slash added is. -/
def ServeMux.shouldRedirect (mux : ServeMux) (path : String) : Bool :=
  if mux.m.any (fun e => e.1 == path) then false
  else if path.data = [] then false
  else if mux.m.any (fun e => e.1 == path ++ "/") then path.data.getLast? != some '/'
  else false

/-- Go `ServeMux.Handler`: the handler for a request and the pattern it matched.  A
request other than CONNECT has its path cleaned first, and a path that cleaning
changes is answered by a redirect to the clean path. -/
def ServeMux.Handler (mux : ServeMux) (r : Request) : Handler × String :=
  if r.Method = "CONNECT" then
    if mux.shouldRedirect r.Path then
      (.redirect (urlString (r.Path ++ "/") r.RawQuery) StatusMovedPermanently, r.Path ++ "/")
    else mux.handler r.Path
  else
    let path := cleanPath r.Path
    if mux.shouldRedirect path then
      (.redirect (urlString (path ++ "/") r.RawQuery) StatusMovedPermanently, path ++ "/")
    else if path ≠ r.Path then
      (.redirect (urlString path r.RawQuery) StatusMovedPermanently, (mux.handler path).2)
    else mux.handler r.Path

/-- The unit of a complete token of a string literal: one plain character, a
backslash with its escape character, or a backslash, `u` and four hex digits. -/
def scanToken : List Char → Option StrUnit
  | [c] => if c = '"' ∨ c = '\\' ∨ c.toNat < 32 then none else some (.char c)
  | [b, e] => if b = '\\' ∧ e ≠ 'u' then (unescape e).map .char else none
  | [b, u, x, y, z, w] =>
    if b = '\\' ∧ u = 'u' then
      match hexVal x, hexVal y, hexVal z, hexVal w with
      | some a1, some a2, some a3, some a4 =>
        some (.esc ((((0 * 16 + a1) * 16 + a2) * 16 + a3) * 16 + a4))
      | _, _, _, _ => none
    else none
  | _ => none

/-- Text `lit` between quotes is a string literal with value `val`. -/
def IsLiteral (lit : List Char) (val : String) : Prop :=
  ∀ rest, readString (lit ++ '"' :: rest) = some (val, rest)

/-- A character the scanner takes as itself inside a string literal. -/
def plainChar (c : Char) : Bool := c != '"' && c != '\\' && decide (32 ≤ c.toNat)

/-- A parse result that did not run out of fuel and, when a value was read, left less
input than it was given. -/
def Consumes (input : List Char) (r : Except ScanError (JValue × List Char)) : Prop :=
  r ≠ .error .fuel ∧ ∀ v rest, r = .ok (v, rest) → rest.length < input.length

/-- The text `EchoResponse.marshal` gives for a message and a reading. -/
def echoText (m : String) (t : Time) : String :=
  structEncoder [("original", appendString m), ("echo", appendString ("Echo: " ++ m)),
    ("timestamp", ⟨'"' :: (t.text.data ++ ['"'])⟩)]

/-- The text `HealthResponse.marshal` gives for a reading. -/
def healthText (t : Time) : String :=
  structEncoder [("status", appendString "healthy"),
    ("timestamp", ⟨'"' :: (t.text.data ++ ['"'])⟩)]

/-- The payload of `infoHandler`. -/
def infoText : String := "\x7b\"service\":\"go-api\",\"version\":\"1.0.0\",\"go_version\":\"1.21\"\x7d"

/-! ## Lemmas -/

/-- The scanner takes one complete token of a literal and goes on with the rest. -/
theorem scanString_token (tok : List Char) (u : StrUnit) (h : scanToken tok = some u)
    (rest : List Char) : scanString (tok ++ rest) = consUnit u (scanString rest) := by
  unfold scanString
  match tok, h with
  | [c], h =>
    simp only [scanToken] at h
    split at h
    · exact absurd h (by simp)
    · rename_i hc
      simp only [not_or, not_lt] at hc
      obtain ⟨h1, h2, h3⟩ := hc
      simp only [Option.some.injEq] at h
      subst h
      simp [scanStringFrom, h1, h2, h3]
  | [b, e], h =>
    simp only [scanToken] at h
    split at h
    · rename_i hc
      obtain ⟨hb, he⟩ := hc
      subst hb
      cases hu : unescape e with
      | none => simp [hu] at h
      | some ch =>
        simp [hu] at h
        subst h
        simp [scanStringFrom, he, hu]
    · exact absurd h (by simp)
  | [b, u1, x, y, z, w], h =>
    simp only [scanToken] at h
    split at h
    · rename_i hc
      obtain ⟨hb, hu1⟩ := hc
      subst hb hu1
      split at h
      · rename_i a1 a2 a3 a4 h1 h2 h3 h4
        simp only [Option.some.injEq] at h
        subst h
        simp [scanStringFrom, h1, h2, h3, h4]
      · exact absurd h (by simp)
    · exact absurd h (by simp)
  | [], h => simp [scanToken] at h
  | [_, _, _], h => simp [scanToken] at h
  | [_, _, _, _], h => simp [scanToken] at h
  | [_, _, _, _, _], h => simp [scanToken] at h
  | _ :: _ :: _ :: _ :: _ :: _ :: _ :: _, h => simp [scanToken] at h

set_option maxRecDepth 100000 in
/-- What `appendString` writes for an ASCII character is one token, giving the character
itself or its `\u00XX` escape. -/
theorem appendRune_token_ascii :
    ∀ n < 128, scanToken (appendRune (Char.ofNat n)) = some (.char (Char.ofNat n))
      ∨ scanToken (appendRune (Char.ofNat n)) = some (.esc n) := by
  decide

/-- What `appendString` writes for a character is one token: the character, or a `\u` escape
of its code, which is no surrogate. -/
theorem appendRune_token (c : Char) :
    scanToken (appendRune c) = some (.char c)
      ∨ (scanToken (appendRune c) = some (.esc c.toNat) ∧ isSurrogate c.toNat = false) := by
  by_cases h : c.toNat < 128
  · have := appendRune_token_ascii c.toNat h
    rw [Char.ofNat_toNat] at this
    rcases this with h1 | h1
    · exact Or.inl h1
    · refine Or.inr ⟨h1, ?_⟩
      simp [isSurrogate]; omega
  · by_cases h2 : c = Char.ofNat 0x2028
    · subst h2; right; decide
    · by_cases h3 : c = Char.ofNat 0x2029
      · subst h3; right; decide
      · left
        have hq : c ≠ '"' := by rintro rfl; exact h (by decide)
        have hb : c ≠ '\\' := by rintro rfl; exact h (by decide)
        simp [appendRune, h, h2, h3, scanToken, hq, hb]
        omega

/-- `unquote` on a `\u` escape that is no surrogate gives the character of that code. -/
theorem unquote_esc (rr : Nat) (h : isSurrogate rr = false) (rest : List StrUnit) :
    unquote (.esc rr :: rest) = Char.ofNat rr :: unquote rest := by
  match rest with
  | [] => simp [unquote, h]
  | .char c :: rest => simp [unquote, h]
  | .esc r1 :: rest => simp [unquote, h]

/-- The scanner reads the escaped text of `s` up to the closing quote, and `unquote` gives
`s` back. -/
theorem scanString_escapeString (s rest : List Char) :
    ∃ units, scanString (escapeString s ++ '"' :: rest) = some (units, rest)
      ∧ unquote units = s := by
  induction s with
  | nil => exact ⟨[], by simp [escapeString, scanString, scanStringFrom], by simp [unquote]⟩
  | cons c s ih =>
    obtain ⟨units, h1, h2⟩ := ih
    rcases appendRune_token c with h | ⟨h, hs⟩
    · refine ⟨.char c :: units, ?_, by simp [unquote, h2]⟩
      simp only [escapeString, List.append_assoc]
      rw [scanString_token _ _ h, h1]; rfl
    · refine ⟨.esc c.toNat :: units, ?_, by rw [unquote_esc _ hs, h2, Char.ofNat_toNat]⟩
      simp only [escapeString, List.append_assoc]
      rw [scanString_token _ _ h, h1]; rfl

/-- The escaped text of `s` is a string literal with value `s`. -/
theorem isLiteral_escapeString (s : List Char) : IsLiteral (escapeString s) ⟨s⟩ := by
  intro rest
  obtain ⟨units, h1, h2⟩ := scanString_escapeString s rest
  simp [readString, h1, h2]

/-- Text without quote, backslash or control character is scanned character by character. -/
theorem scanString_plain (text rest : List Char) (h : ∀ c ∈ text, plainChar c = true) :
    scanString (text ++ '"' :: rest) = some (text.map .char, rest) := by
  unfold scanString
  induction text with
  | nil => simp [scanStringFrom]
  | cons c text ih =>
    have hc := h c (List.mem_cons_self _ _)
    simp only [plainChar, Bool.and_eq_true, bne_iff_ne, ne_eq, decide_eq_true_eq] at hc
    obtain ⟨⟨h1, h2⟩, h3⟩ := hc
    have ih' := ih (fun d hd => h d (List.mem_cons_of_mem _ hd))
    simp [scanStringFrom, h1, h2, h3, ih', consUnit]

/-- `unquote` on characters alone gives them back. -/
theorem unquote_map_char (text : List Char) : unquote (text.map .char) = text := by
  induction text with
  | nil => simp [unquote]
  | cons c text ih => simp [unquote, ih]

/-- Text without quote, backslash or control character is a string literal of itself. -/
theorem isLiteral_plain (text : List Char) (h : ∀ c ∈ text, plainChar c = true) :
    IsLiteral text ⟨text⟩ := by
  intro rest
  simp [readString, scanString_plain text rest h, unquote_map_char]

/-- A decimal digit is a plain character. -/
theorem plainChar_digitChar (n : Nat) : plainChar (digitChar n) = true := by
  unfold digitChar
  have h : n % 10 < 10 := Nat.mod_lt _ (by decide)
  generalize n % 10 = d at h
  interval_cases d <;> decide

/-- The digits of `appendInt` are plain characters. -/
theorem plain_appendInt (x width : Nat) : ∀ c ∈ appendInt x width, plainChar c = true := by
  induction width generalizing x with
  | zero => simp [appendInt]
  | succ w ih =>
    intro c hc
    simp only [appendInt, List.mem_append, List.mem_singleton] at hc
    rcases hc with hc | hc
    · exact ih _ c hc
    · subst hc; exact plainChar_digitChar x

/-- The fraction `appendNano` writes is plain characters. -/
theorem plain_appendNano (n : Nat) : ∀ c ∈ appendNano n, plainChar c = true := by
  intro c hc
  unfold appendNano at hc
  split at hc
  · simp at hc
  · simp only [List.mem_cons] at hc
    rcases hc with hc | hc
    · subst hc; decide
    · unfold trimZeros at hc
      rw [List.mem_reverse] at hc
      have := List.dropWhile_subset _ hc
      rw [List.mem_reverse] at this
      exact plain_appendInt _ _ c this

/-- The zone suffix is plain characters. -/
theorem plain_appendZone (o : Int) : ∀ c ∈ appendZone o, plainChar c = true := by
  intro c hc
  unfold appendZone at hc
  split at hc
  · simp at hc; subst hc; decide
  · simp only [List.mem_cons, List.mem_append] at hc
    rcases hc with hc | hc | hc | hc
    · subst hc; split <;> decide
    · exact plain_appendInt _ _ c hc
    · subst hc; decide
    · exact plain_appendInt _ _ c hc

/-- The year of a day up to 107000 days after the epoch has four digits. -/
theorem civilDate_year_lt (days : Int) (h0 : -1 ≤ days) (h1 : days ≤ 107000) :
    (civilDate days).1 < 10000 := by
  unfold civilDate
  simp only []
  split_ifs <;> omega

/-- `appendStrictRFC3339` never fails on a reading of the clock, and its text is plain
characters. -/
theorem appendStrictRFC3339_plain (t : Time) :
    ∃ text, appendStrictRFC3339 t = some text ∧ ∀ c ∈ text, plainChar c = true := by
  obtain ⟨n, o, h1, h2, h3⟩ := t
  have hy : (civilDate (((n / 1000000000 : Nat) + o : Int) / 86400)).1 < 10000 := by
    apply civilDate_year_lt <;> omega
  have hz : (Int.tdiv o 60).natAbs / 60 < 24 := by
    rw [Int.natAbs_tdiv]
    show o.natAbs / 60 / 60 < 24
    omega
  unfold appendStrictRFC3339
  simp only [Nat.not_le.mpr hy, Nat.not_le.mpr hz, if_false]
  refine ⟨_, rfl, ?_⟩
  intro c hc
  simp only [List.mem_cons, List.mem_append, or_assoc] at hc
  have hd : plainChar '-' = true := by decide
  have hT : plainChar 'T' = true := by decide
  have hcol : plainChar ':' = true := by decide
  rcases hc with hc | hc | hc | hc | hc | hc | hc | hc | hc | hc | hc | hc | hc
  all_goals first
    | exact plain_appendInt _ _ c hc
    | exact plain_appendNano _ c hc
    | exact plain_appendZone _ c hc
    | (subst hc; assumption)

/-- `Time.MarshalJSON` gives the RFC 3339 text between quotes, a string literal of that text. -/
theorem Time.MarshalJSON_eq (t : Time) :
    t.MarshalJSON = some ⟨'"' :: (t.text.data ++ ['"'])⟩ ∧ IsLiteral t.text.data t.text := by
  obtain ⟨text, h1, h2⟩ := appendStrictRFC3339_plain t
  simp only [Time.MarshalJSON, Time.text, h1, Option.getD_some, true_and]
  exact isLiteral_plain text h2

/-- Nothing is skipped in front of a character that is not white space. -/
theorem skipSpace_cons (c : Char) (rest : List Char) (h : isSpace c = false) :
    skipSpace (c :: rest) = c :: rest := by
  simp [skipSpace, h]

/-- A string literal is read as a string value. -/
theorem parseValue_string (fuel depth : Nat) (lit : List Char) (val : String)
    (hv : IsLiteral lit val) (rest : List Char) :
    parseValue (fuel + 1) depth ('"' :: (lit ++ '"' :: rest)) = .ok (.string val, rest) := by
  rw [parseValue, skipSpace_cons _ _ (by decide)]
  simp [hv rest]

/-- One member with a string value, followed by a comma or the closing brace. -/
theorem parseMembers_member (fuel depth : Nat) (acc : List (String × JValue))
    (k lit : List Char) (key val : String) (hk : IsLiteral k key) (hv : IsLiteral lit val)
    (sep : Char) (rest : List Char) (hsep : isSpace sep = false) :
    parseMembers (fuel + 2) depth acc
        ('"' :: (k ++ '"' :: ':' :: '"' :: (lit ++ '"' :: sep :: rest)))
      = if sep = ',' then parseMembers (fuel + 1) depth ((key, .string val) :: acc) rest
        else if sep = '\x7d' then .ok (.object ((key, .string val) :: acc).reverse, rest)
        else .error .invalid := by
  rw [parseMembers, skipSpace_cons _ _ (by decide)]
  simp only [if_true, hk _, skipSpace_cons ':' _ (by decide),
    parseValue_string fuel depth lit val hv, skipSpace_cons sep _ hsep]

/-- An object of three members with string values, written without white space. -/
theorem parseValue_struct3 (fuel : Nat) (k1 k2 k3 l1 l2 l3 : List Char)
    (key1 key2 key3 v1 v2 v3 : String)
    (hk1 : IsLiteral k1 key1) (hk2 : IsLiteral k2 key2) (hk3 : IsLiteral k3 key3)
    (h1 : IsLiteral l1 v1) (h2 : IsLiteral l2 v2) (h3 : IsLiteral l3 v3) (rest : List Char) :
    parseValue (fuel + 5) 0
      ('\x7b' :: '"' :: (k1 ++ '"' :: ':' :: '"' :: (l1 ++ '"' :: ',' ::
        '"' :: (k2 ++ '"' :: ':' :: '"' :: (l2 ++ '"' :: ',' ::
        '"' :: (k3 ++ '"' :: ':' :: '"' :: (l3 ++ '"' :: '\x7d' :: rest)))))))
      = .ok (.object [(key1, .string v1), (key2, .string v2), (key3, .string v3)], rest) := by
  rw [parseValue, skipSpace_cons _ _ (by decide)]
  simp only [show ('\x7b' : Char) = '\x7b' from rfl, if_true, skipSpace_cons '"' _ (by decide),
    show maxNestingDepth ≤ 0 ↔ False from by decide, if_false,
    show ('"' : Char) = '\x7d' ↔ False from by decide]
  rw [parseMembers_member (fuel + 2) 1 [] k1 l1 key1 v1 hk1 h1 ',' _ (by decide)]
  rw [if_pos rfl]
  rw [parseMembers_member (fuel + 1) 1 _ k2 l2 key2 v2 hk2 h2 ',' _ (by decide)]
  rw [if_pos rfl]
  rw [parseMembers_member fuel 1 _ k3 l3 key3 v3 hk3 h3 '\x7d' _ (by decide)]
  simp

/-- Skipping white space does not lengthen the input. -/
theorem skipSpace_length (l : List Char) : (skipSpace l).length ≤ l.length := by
  induction l with
  | nil => simp [skipSpace]
  | cons c l ih =>
    simp only [skipSpace]
    split
    · simp only [List.length_cons]; omega
    · exact Nat.le_refl _

/-- A result of `consUnit` comes from a result with the same rest. -/
theorem consUnit_eq_some {u : StrUnit} {r : Option (List StrUnit × List Char)}
    {units : List StrUnit} {rest : List Char} (h : consUnit u r = some (units, rest)) :
    ∃ us, r = some (us, rest) := by
  cases r with
  | none => simp [consUnit] at h
  | some p =>
    obtain ⟨us, rs⟩ := p
    simp only [consUnit, Option.some.injEq, Prod.mk.injEq] at h
    exact ⟨us, by rw [h.2]⟩

/-- A scanned string literal consumes input. -/
theorem scanStringFrom_length (input : List Char) :
    ∀ (st : StrState) (units : List StrUnit) (rest : List Char),
      scanStringFrom st input = some (units, rest) → rest.length < input.length := by
  induction input with
  | nil => intro st units rest h; cases st <;> simp [scanStringFrom] at h
  | cons c input ih =>
    intro st units rest h
    simp only [List.length_cons]
    cases st with
    | inString =>
      simp only [scanStringFrom] at h
      split at h
      · simp only [Option.some.injEq, Prod.mk.injEq] at h
        rw [← h.2]; omega
      · split at h
        · have := ih _ _ _ h; omega
        · split at h
          · simp at h
          · obtain ⟨us, h'⟩ := consUnit_eq_some h
            have := ih _ _ _ h'; omega
    | inStringEsc =>
      simp only [scanStringFrom] at h
      split at h
      · have := ih _ _ _ h; omega
      · split at h
        · obtain ⟨us, h'⟩ := consUnit_eq_some h
          have := ih _ _ _ h'; omega
        · simp at h
    | inStringEscU seen value =>
      simp only [scanStringFrom] at h
      split at h
      · simp at h
      · split at h
        · have := ih _ _ _ h; omega
        · obtain ⟨us, h'⟩ := consUnit_eq_some h
          have := ih _ _ _ h'; omega

/-- A read string literal consumes input. -/
theorem readString_length {input : List Char} {s : String} {rest : List Char}
    (h : readString input = some (s, rest)) : rest.length < input.length := by
  unfold readString scanString at h
  split at h
  · rename_i units rest' hs
    simp only [Option.some.injEq, Prod.mk.injEq] at h
    rw [← h.2]
    exact scanStringFrom_length _ _ _ _ hs
  · simp at h

/-- What follows a run of digits is no longer than the input. -/
theorem takeDigits_length (l : List Char) : (takeDigits l).2.length ≤ l.length := by
  induction l with
  | nil => simp [takeDigits]
  | cons c l ih =>
    simp only [takeDigits]
    split
    · simp only [List.length_cons]; omega
    · exact Nat.le_refl _

/-- What follows an exponent is no longer than the input. -/
theorem scanExponent_length {acc input lit rest : List Char}
    (h : scanExponent acc input = some (lit, rest)) : rest.length ≤ input.length := by
  unfold scanExponent at h
  split at h
  · rename_i e r
    split at h
    · split at h
      · rename_i sg r1
        split at h
        · split at h
          · simp at h
          · simp only [Option.some.injEq, Prod.mk.injEq] at h
            have := takeDigits_length r1
            rw [← h.2]; simp only [List.length_cons]; omega
        · split at h
          · simp at h
          · simp only [Option.some.injEq, Prod.mk.injEq] at h
            have := takeDigits_length (sg :: r1)
            rw [← h.2]; simp only [List.length_cons] at *; omega
      · simp at h
    · simp only [Option.some.injEq, Prod.mk.injEq] at h
      rw [← h.2]
  · simp only [Option.some.injEq, Prod.mk.injEq] at h
    rw [← h.2]

/-- What follows a fraction is no longer than the input. -/
theorem scanFraction_length {acc input lit rest : List Char}
    (h : scanFraction acc input = some (lit, rest)) : rest.length ≤ input.length := by
  unfold scanFraction at h
  split at h
  · rename_i d r
    split at h
    · split at h
      · simp at h
      · have := scanExponent_length h
        have := takeDigits_length r
        simp only [List.length_cons]; omega
    · exact scanExponent_length h
  · simp only [Option.some.injEq, Prod.mk.injEq] at h
    rw [← h.2]

/-- The digits of a number consume input. -/
theorem scanDigits_length {acc input lit rest : List Char}
    (h : scanDigits acc input = some (lit, rest)) : rest.length < input.length := by
  unfold scanDigits at h
  split at h
  · rename_i c r
    simp only [List.length_cons]
    split at h
    · have := scanFraction_length h; omega
    · split at h
      · have := scanFraction_length h
        have := takeDigits_length r
        omega
      · simp at h
  · simp at h

/-- A number literal consumes input. -/
theorem scanNumber_length {input lit rest : List Char}
    (h : scanNumber input = some (lit, rest)) : rest.length < input.length := by
  unfold scanNumber at h
  split at h
  · rename_i c r
    split at h
    · have := scanDigits_length h
      simp only [List.length_cons]; omega
    · exact scanDigits_length h
  · simp at h

/-- What follows `true`, `false` or `null` is no longer than the input. -/
theorem scanLiteral_length (lit : List Char) :
    ∀ (input rest : List Char), scanLiteral lit input = some rest → rest.length ≤ input.length := by
  induction lit with
  | nil => intro input rest h; simp only [scanLiteral, Option.some.injEq] at h; rw [h]
  | cons l lit ih =>
    intro input rest h
    cases input with
    | nil => simp [scanLiteral] at h
    | cons c input =>
      simp only [scanLiteral] at h
      split at h
      · have := ih _ _ h
        simp only [List.length_cons]; omega
      · simp at h

/-- A syntax error is not a fuel error. -/
theorem consumes_invalid (input : List Char) : Consumes input (.error .invalid) :=
  ⟨by simp, by simp⟩

/-- A value with a shorter rest consumes input. -/
theorem consumes_ok {input : List Char} {v : JValue} {rest : List Char}
    (h : rest.length < input.length) : Consumes input (.ok (v, rest)) :=
  ⟨by simp, by
    intro v' rest' h'
    simp only [Except.ok.injEq, Prod.mk.injEq] at h'
    rw [← h'.2]; exact h⟩

/-- `Consumes` for an input holds for every input at least as long. -/
theorem consumes_mono {a b : List Char} {r : Except ScanError (JValue × List Char)}
    (h : Consumes a r) (hab : a.length ≤ b.length) : Consumes b r :=
  ⟨h.1, fun v rest hr => Nat.lt_of_lt_of_le (h.2 v rest hr) hab⟩

/-- With fuel above twice the length of the input the three parsers never run out of fuel,
and a value they read consumes input. -/
theorem parse_consumes (fuel : Nat) :
    (∀ depth input, 2 * input.length + 1 ≤ fuel → Consumes input (parseValue fuel depth input))
    ∧ (∀ depth acc input, 2 * input.length + 2 ≤ fuel →
        Consumes input (parseMembers fuel depth acc input))
    ∧ (∀ depth acc input, 2 * input.length + 2 ≤ fuel →
        Consumes input (parseElements fuel depth acc input)) := by
  induction fuel with
  | zero =>
    refine ⟨?_, ?_, ?_⟩ <;> intros <;> omega
  | succ fuel ih =>
    obtain ⟨ihV, ihM, ihE⟩ := ih
    refine ⟨?_, ?_, ?_⟩
    · intro depth input hf
      rw [parseValue]
      have hsk := skipSpace_length input
      split
      · exact consumes_invalid _
      · rename_i c rest hs
        rw [hs] at hsk
        simp only [List.length_cons] at hsk
        split
        · split
          · exact consumes_invalid _
          · have hsk1 := skipSpace_length rest
            split
            · exact consumes_invalid _
            · rename_i c1 rest1 hs1
              rw [hs1] at hsk1
              simp only [List.length_cons] at hsk1
              split
              · exact consumes_ok (by omega)
              · refine consumes_mono (ihM _ _ _ ?_) ?_ <;> simp only [List.length_cons] <;> omega
        · split
          · split
            · exact consumes_invalid _
            · have hsk1 := skipSpace_length rest
              split
              · exact consumes_invalid _
              · rename_i c1 rest1 hs1
                rw [hs1] at hsk1
                simp only [List.length_cons] at hsk1
                split
                · exact consumes_ok (by omega)
                · refine consumes_mono (ihE _ _ _ ?_) ?_ <;> simp only [List.length_cons] <;> omega
          · split
            · split
              · rename_i s rest1 hr
                have := readString_length hr
                exact consumes_ok (by omega)
              · exact consumes_invalid _
            · split
              · split
                · rename_i lit rest1 hr
                  have := scanNumber_length hr
                  simp only [List.length_cons] at this
                  exact consumes_ok (by omega)
                · exact consumes_invalid _
              · split
                · split
                  · rename_i rest1 hr
                    have := scanLiteral_length _ _ _ hr
                    exact consumes_ok (by omega)
                  · exact consumes_invalid _
                · split
                  · split
                    · rename_i rest1 hr
                      have := scanLiteral_length _ _ _ hr
                      exact consumes_ok (by omega)
                    · exact consumes_invalid _
                  · split
                    · split
                      · rename_i rest1 hr
                        have := scanLiteral_length _ _ _ hr
                        exact consumes_ok (by omega)
                      · exact consumes_invalid _
                    · exact consumes_invalid _
    · intro depth acc input hf
      rw [parseMembers]
      have hsk := skipSpace_length input
      split
      · exact consumes_invalid _
      · rename_i q rest hs
        rw [hs] at hsk
        simp only [List.length_cons] at hsk
        split
        · split
          · exact consumes_invalid _
          · rename_i key rest1 hr
            have h1 := readString_length hr
            have hsk1 := skipSpace_length rest1
            split
            · exact consumes_invalid _
            · rename_i colon rest2 hs2
              rw [hs2] at hsk1
              simp only [List.length_cons] at hsk1
              split
              · have hv := ihV depth rest2 (by omega)
                split
                · rename_i e he
                  refine ⟨?_, by simp⟩
                  intro hcontra
                  simp only [Except.error.injEq] at hcontra
                  rw [hcontra] at he
                  exact hv.1 he
                · rename_i v rest3 hr3
                  have h3 := hv.2 v rest3 hr3
                  have hsk3 := skipSpace_length rest3
                  split
                  · exact consumes_invalid _
                  · rename_i sep rest4 hs4
                    rw [hs4] at hsk3
                    simp only [List.length_cons] at hsk3
                    split
                    · refine consumes_mono (ihM _ _ _ ?_) ?_ <;> omega
                    · split
                      · exact consumes_ok (by omega)
                      · exact consumes_invalid _
              · exact consumes_invalid _
        · exact consumes_invalid _
    · intro depth acc input hf
      rw [parseElements]
      have hv := ihV depth input (by omega)
      split
      · rename_i e he
        refine ⟨?_, by simp⟩
        intro hcontra
        simp only [Except.error.injEq] at hcontra
        rw [hcontra] at he
        exact hv.1 he
      · rename_i v rest hr
        have h3 := hv.2 v rest hr
        have hsk3 := skipSpace_length rest
        split
        · exact consumes_invalid _
        · rename_i sep rest1 hs4
          rw [hs4] at hsk3
          simp only [List.length_cons] at hsk3
          split
          · refine consumes_mono (ihE _ _ _ ?_) ?_ <;> omega
          · split
            · exact consumes_ok (by omega)
            · exact consumes_invalid _

/-- The recursion bound of `readValue` is never what stops it: every error it reports is an
error of the scanner. -/
theorem readValue_ne_fuel (body : String) : readValue body ≠ .error .fuel :=
  ((parse_consumes _).1 0 body.data (by omega)).1

/-- The encoding of an echo record never fails. -/
theorem EchoResponse.marshal_eq (m : String) (t : Time) :
    EchoResponse.marshal { Original := m, Echo := "Echo: " ++ m, Timestamp := t }
      = some (echoText m t) := by
  simp [EchoResponse.marshal, (Time.MarshalJSON_eq t).1, echoText]

/-- `echoHandler` on a request that is not a POST. -/
theorem echoHandler_not_post (w : ResponseWriter) (r : Request) (clk : Clock)
    (h : r.Method ≠ "POST") :
    echoHandler w r clk = (Error w "Method not allowed" StatusMethodNotAllowed, clk) := by
  simp [echoHandler, MethodPost, h]

/-- `echoHandler` on a POST whose body `Decode` rejects. -/
theorem echoHandler_decode_error (w : ResponseWriter) (r : Request) (clk : Clock)
    (h : r.Method = "POST") (hd : (Decode r.Body { Message := "" }).2.isSome = true) :
    echoHandler w r clk
      = (Error (w.SetHeader "Content-Type" "application/json") "Invalid JSON" StatusBadRequest,
          clk) := by
  simp [echoHandler, MethodPost, h, hd]

/-- `echoHandler` on a POST whose body `Decode` accepts. -/
theorem echoHandler_decoded (w : ResponseWriter) (r : Request) (clk : Clock)
    (h : r.Method = "POST") (hd : (Decode r.Body { Message := "" }).2 = none) :
    echoHandler w r clk
      = ((w.SetHeader "Content-Type" "application/json").Write
            (echoText (Decode r.Body { Message := "" }).1.Message (clk.tick clk.reads) ++ "\n"),
          { clk with reads := clk.reads + 1 }) := by
  simp [echoHandler, MethodPost, h, hd, Clock.Now, EchoResponse.marshal_eq, Encode]

/-- The response of `echoHandler` to a request that is not a POST. -/
theorem respond_echo_not_post (r : Request) (clk : Clock) (h : r.Method ≠ "POST") :
    respond echoHandler r clk
      = { status := 405, header := [("X-Content-Type-Options", "nosniff"),
            ("Content-Type", "text/plain; charset=utf-8")], body := "Method not allowed\n" } := by
  rw [respond, echoHandler_not_post _ _ _ h]
  rfl

/-- The response of `echoHandler` to a POST whose body `Decode` rejects. -/
theorem respond_echo_decode_error (r : Request) (clk : Clock) (h : r.Method = "POST")
    (hd : (Decode r.Body { Message := "" }).2.isSome = true) :
    respond echoHandler r clk
      = { status := 400, header := [("X-Content-Type-Options", "nosniff"),
            ("Content-Type", "text/plain; charset=utf-8")], body := "Invalid JSON\n" } := by
  rw [respond, echoHandler_decode_error _ _ _ h hd]
  rfl

/-- The response of `echoHandler` to a POST whose body `Decode` accepts. -/
theorem respond_echo_decoded (r : Request) (clk : Clock) (h : r.Method = "POST")
    (hd : (Decode r.Body { Message := "" }).2 = none) :
    respond echoHandler r clk
      = { status := 200, header := [("Content-Type", "application/json")],
          body := echoText (Decode r.Body { Message := "" }).1.Message (clk.tick clk.reads)
            ++ "\n" } := by
  rw [respond, echoHandler_decoded _ _ _ h hd]
  rfl

/-- The body of an echo response read back as JSON. -/
theorem readValue_echoText (m : String) (t : Time) :
    readValue (echoText m t ++ "\n")
      = .ok (.object [("original", .string m), ("echo", .string ("Echo: " ++ m)),
          ("timestamp", .string t.text)], ['\n']) := by
  unfold readValue
  have hlen : ∃ fuel, 2 * (echoText m t ++ "\n").data.length + 2 = fuel + 5 :=
    ⟨2 * (echoText m t ++ "\n").data.length - 3, by
      simp [echoText, structEncoder, encodeFields]; omega⟩
  obtain ⟨fuel, hf⟩ := hlen
  rw [hf]
  have := parseValue_struct3 fuel "original".data "echo".data "timestamp".data
    (escapeString m.data) (escapeString ("Echo: " ++ m).data) t.text.data
    "original" "echo" "timestamp" m ("Echo: " ++ m) t.text
    (isLiteral_plain _ (by decide)) (isLiteral_plain _ (by decide))
    (isLiteral_plain _ (by decide))
    (isLiteral_escapeString _) (isLiteral_escapeString _) (Time.MarshalJSON_eq t).2 ['\n']
  rw [← this]
  congr 1
  simp [echoText, structEncoder, encodeFields, appendString]

/-- An object of one member with a string value, written without white space. -/
theorem parseValue_struct1 (fuel : Nat) (k1 l1 : List Char) (key1 v1 : String)
    (hk1 : IsLiteral k1 key1) (h1 : IsLiteral l1 v1) (rest : List Char) :
    parseValue (fuel + 3) 0
      ('\x7b' :: '"' :: (k1 ++ '"' :: ':' :: '"' :: (l1 ++ '"' :: '\x7d' :: rest)))
      = .ok (.object [(key1, .string v1)], rest) := by
  rw [parseValue, skipSpace_cons _ _ (by decide)]
  simp only [show ('\x7b' : Char) = '\x7b' from rfl, if_true, skipSpace_cons '"' _ (by decide),
    show maxNestingDepth ≤ 0 ↔ False from by decide, if_false,
    show ('"' : Char) = '\x7d' ↔ False from by decide]
  rw [parseMembers_member fuel 1 [] k1 l1 key1 v1 hk1 h1 '\x7d' _ (by decide)]
  simp

/-- The encoding of an echo request read back as JSON. -/
theorem readValue_marshal_request (m : String) :
    readValue (EchoRequest.marshal { Message := m })
      = .ok (.object [("message", .string m)], []) := by
  unfold readValue
  have hlen : ∃ fuel,
      2 * (EchoRequest.marshal { Message := m }).data.length + 2 = fuel + 3 :=
    ⟨2 * (EchoRequest.marshal { Message := m }).data.length - 1, by
      simp [EchoRequest.marshal, structEncoder, encodeFields]; omega⟩
  obtain ⟨fuel, hf⟩ := hlen
  rw [hf]
  have := parseValue_struct1 fuel "message".data (escapeString m.data) "message" m
    (isLiteral_plain _ (by decide)) (isLiteral_escapeString _) []
  rw [← this]
  congr 1
  simp [EchoRequest.marshal, structEncoder, encodeFields, appendString]

/-- `Decode` on the encoding of an echo request gives the request back. -/
theorem Decode_marshal_request (m : String) :
    Decode (EchoRequest.marshal { Message := m }) { Message := "" }
      = ({ Message := m }, none) := by
  simp only [Decode, readValue_marshal_request, storeValue, List.foldl, storeMember]
  rw [if_pos (by decide)]

/-- The response of `healthHandler`. -/
theorem respond_health (r : Request) (clk : Clock) :
    respond healthHandler r clk
      = { status := 200, header := [("Content-Type", "application/json")],
          body := healthText (clk.tick clk.reads) ++ "\n" } := by
  simp only [respond, healthHandler, Clock.Now, HealthResponse.marshal,
    (Time.MarshalJSON_eq _).1, Encode]
  rfl

/-- The response of `infoHandler`. -/
theorem respond_info (r : Request) (clk : Clock) :
    respond infoHandler r clk
      = { status := 200, header := [("Content-Type", "application/json")], body := infoText ++ "\n" } := by
  simp only [respond, infoHandler, InfoResponse.marshal, Encode]
  decide

/-- After `saveError` there is a saved error. -/
theorem saveError_ne_none (st : DecodeState) (e : DecodeError) :
    (saveError st e).2 = none ↔ False := by
  unfold saveError
  split
  · simp
  · rename_i x h; simp [h]

/-- Storing a member leaves no saved error exactly when there was none and the member fits. -/
theorem storeMember_snd (st : DecodeState) (kv : String × JValue) :
    (storeMember st kv).2 = none ↔
      st.2 = none ∧ (!isMessageKey kv.1 || fitsMessage kv.2) = true := by
  obtain ⟨k, v⟩ := kv
  unfold storeMember
  by_cases hk : isMessageKey k = true
  · simp only [hk, if_true, Bool.not_true, Bool.false_or]
    cases v <;> simp [saveError_ne_none, fitsMessage]
  · simp [hk]

/-- Storing the members of an object leaves no saved error exactly when there was none and
every member fits. -/
theorem foldl_storeMember_snd (members : List (String × JValue)) (st : DecodeState) :
    (members.foldl storeMember st).2 = none ↔
      st.2 = none
        ∧ members.all (fun kv => !isMessageKey kv.1 || fitsMessage kv.2) = true := by
  induction members generalizing st with
  | nil => simp
  | cons kv members ih =>
    rw [List.foldl_cons, ih, storeMember_snd, List.all_cons, Bool.and_eq_true]
    tauto

/-- Storing a value gives no error exactly when the value is storable. -/
theorem storeValue_snd (v : JValue) (req : EchoRequest) :
    (storeValue v req).2 = none ↔ storable v = true := by
  cases v with
  | object members => simp only [storeValue, storable, foldl_storeMember_snd, true_and]
  | _ => simp [storeValue, storable]

/-- `Decode` returns no error exactly on the accepted bodies. -/
theorem Decode_snd (body : String) (req : EchoRequest) :
    (Decode body req).2 = none ↔ accepted body = true := by
  cases h : readValue body with
  | error e => simp [Decode, accepted, h]
  | ok p => simp [Decode, accepted, h, storeValue_snd]

/-- `Decode` returns an error exactly on the bodies that are not accepted. -/
theorem Decode_snd_isSome (body : String) (req : EchoRequest) :
    (Decode body req).2.isSome = true ↔ accepted body = false := by
  rw [← Bool.not_eq_true, ← Decode_snd body req]
  cases (Decode body req).2 <;> simp

/-- `echoHandler` does not read the clock on a request that is not a POST. -/
theorem clockReads_echo_not_post (r : Request) (clk : Clock) (h : r.Method ≠ "POST") :
    clockReads echoHandler r clk = 0 := by
  rw [clockReads, echoHandler_not_post _ _ _ h]
  simp

/-- The body of an info response read back as JSON. -/
theorem readValue_infoText :
    readValue (infoText ++ "\n")
      = .ok (.object [("service", .string "go-api"), ("version", .string "1.0.0"),
          ("go_version", .string "1.21")], ['\n']) := by
  rfl

/-- The three responses of `echoHandler`. -/
theorem respond_echo_cases (r : Request) (clk : Clock) :
    respond echoHandler r clk
        = { status := 405
            header := [("X-Content-Type-Options", "nosniff"),
              ("Content-Type", "text/plain; charset=utf-8")]
            body := "Method not allowed\n" }
    ∨ respond echoHandler r clk
        = { status := 400
            header := [("X-Content-Type-Options", "nosniff"),
              ("Content-Type", "text/plain; charset=utf-8")]
            body := "Invalid JSON\n" }
    ∨ respond echoHandler r clk
        = { status := 200
            header := [("Content-Type", "application/json")]
            body := echoText (Decode r.Body { Message := "" }).1.Message (clk.tick clk.reads)
              ++ "\n" } := by
  by_cases h : r.Method = "POST"
  · cases hd : (Decode r.Body { Message := "" }).2 with
    | none => exact Or.inr (Or.inr (respond_echo_decoded r clk h hd))
    | some e => exact Or.inr (Or.inl (respond_echo_decode_error r clk h (by rw [hd]; rfl)))
  · exact Or.inl (respond_echo_not_post r clk h)

/-- Claim C2: for every request whose method is not exactly the string `POST`, whatever
its body, the response has status 405 with the plain-text body `Method not allowed`
and a line feed; the response is the same for every body (the body is never decoded and
no echo record is written), and the clock is not read. -/
theorem echoHandler_method_not_allowed (r : Request) (clk : Clock)
    (hMethod : r.Method ≠ "POST") :
    respond echoHandler r clk
        = { status := 405
            header := [("X-Content-Type-Options", "nosniff"),
              ("Content-Type", "text/plain; charset=utf-8")]
            body := "Method not allowed\n" }
      ∧ (∀ body : String,
          respond echoHandler { r with Body := body } clk = respond echoHandler r clk)
      ∧ clockReads echoHandler r clk = 0 := by
  refine ⟨respond_echo_not_post r clk hMethod, ?_, clockReads_echo_not_post r clk hMethod⟩
  intro body
  rw [respond_echo_not_post r clk hMethod,
    respond_echo_not_post { r with Body := body } clk hMethod]

/-- Witness of C2: `GET`, lower-case `post` and the empty method, each with a well-formed
`{"message":"hi"}` body, are answered 405. -/
theorem echoHandler_method_not_allowed_witness :
    (Request.make "GET" "/echo" helloBody).Method ≠ "POST"
    ∧ (Request.make "post" "/echo" helloBody).Method ≠ "POST"
    ∧ (Request.make "" "/echo" helloBody).Method ≠ "POST"
    ∧ respond echoHandler (Request.make "post" "/echo" helloBody) Clock.sample
        = { status := 405
            header := [("X-Content-Type-Options", "nosniff"),
              ("Content-Type", "text/plain; charset=utf-8")]
            body := "Method not allowed\n" }
    ∧ respond echoHandler (Request.make "" "/echo" helloBody) Clock.sample
        = { status := 405
            header := [("X-Content-Type-Options", "nosniff"),
              ("Content-Type", "text/plain; charset=utf-8")]
            body := "Method not allowed\n" }
    ∧ respond echoHandler (Request.make "GET" "/echo" helloBody) Clock.sample
        = { status := 405
            header := [("X-Content-Type-Options", "nosniff"),
              ("Content-Type", "text/plain; charset=utf-8")]
            body := "Method not allowed\n" }
    ∧ (∀ body : String,
        respond echoHandler
            { Request.make "GET" "/echo" helloBody with Body := body } Clock.sample
          = respond echoHandler (Request.make "GET" "/echo" helloBody)
              Clock.sample)
    ∧ clockReads echoHandler (Request.make "GET" "/echo" helloBody)
        Clock.sample = 0 :=
  ⟨by decide, by decide, by decide,
    (echoHandler_method_not_allowed (Request.make "post" "/echo" helloBody)
      Clock.sample (by decide)).1,
    (echoHandler_method_not_allowed (Request.make "" "/echo" helloBody)
      Clock.sample (by decide)).1,
    echoHandler_method_not_allowed (Request.make "GET" "/echo" helloBody)
      Clock.sample (by decide)⟩

/-- Claim C4: for every string `m` (a Lean `String` is a sequence of Unicode scalar
values, that is, valid UTF-8), the JSON encoding of `{message: m}` that Go's `Marshal`
writes decodes to `m`; POSTing it gives status 200 and a body that, read back as JSON,
is the object with `original = m` unchanged and `echo = "Echo: " ++ m`.  The same holds
for every other body that reads as the object `{message: m}`, however it escapes `m`. -/
theorem echo_round_trip (r : Request) (clk : Clock) (m : String) :
    Decode (EchoRequest.marshal { Message := m }) { Message := "" } = ({ Message := m }, none)
    ∧ (respond echoHandler
          { r with Method := "POST", Body := EchoRequest.marshal { Message := m } } clk).status
        = 200
    ∧ readValue
        (respond echoHandler
          { r with Method := "POST", Body := EchoRequest.marshal { Message := m } } clk).body
        = .ok (.object [("original", .string m), ("echo", .string ("Echo: " ++ m)),
            ("timestamp", .string (clk.tick clk.reads).text)], ['\n'])
    ∧ (∀ (body : String) (rest : List Char),
        readValue body = .ok (.object [("message", .string m)], rest) →
        readValue (respond echoHandler { r with Method := "POST", Body := body } clk).body
          = .ok (.object [("original", .string m), ("echo", .string ("Echo: " ++ m)),
              ("timestamp", .string (clk.tick clk.reads).text)], ['\n'])) := by
  have key : ∀ (body : String) (rest : List Char),
      readValue body = .ok (.object [("message", .string m)], rest) →
      respond echoHandler { r with Method := "POST", Body := body } clk
        = { status := 200
            header := [("Content-Type", "application/json")]
            body := echoText m (clk.tick clk.reads) ++ "\n" } := by
    intro body rest hb
    have hdec : Decode body { Message := "" } = ({ Message := m }, none) := by
      simp only [Decode, hb, storeValue, List.foldl, storeMember]
      rw [if_pos (by decide)]
    have := respond_echo_decoded { r with Method := "POST", Body := body } clk rfl
      (by show (Decode body { Message := "" }).2 = none; rw [hdec])
    rw [this]
    show _ = _
    simp only [hdec]
  have h1 := key _ _ (readValue_marshal_request m)
  refine ⟨Decode_marshal_request m, ?_, ?_, ?_⟩
  · rw [h1]
  · rw [h1]; exact readValue_echoText m _
  · intro body rest hb
    rw [key body rest hb]; exact readValue_echoText m _

/-- Witness of C4: a message with an HTML character, a character outside the basic
plane written as a surrogate pair, and quotes comes back unchanged. -/
theorem echo_round_trip_witness :
    readValue "\x7b \"message\" : \"a\\u003cb \\ud83d\\ude00 \\\"q\\\"\" \x7d trailing"
      = .ok (.object [("message", .string "a<b 😀 \"q\"")], " trailing".data)
    ∧ readValue
        (respond echoHandler
          { Request.make "PUT" "/echo" "" with
            Method := "POST"
            Body := "\x7b \"message\" : \"a\\u003cb \\ud83d\\ude00 \\\"q\\\"\" \x7d trailing" }
          Clock.sample).body
      = .ok (.object [("original", .string "a<b 😀 \"q\""),
          ("echo", .string ("Echo: " ++ "a<b 😀 \"q\"")),
          ("timestamp", .string (Clock.sample.tick Clock.sample.reads).text)], ['\n'])
    ∧ (respond echoHandler
          { Request.make "PUT" "/echo" "" with
            Method := "POST", Body := EchoRequest.marshal { Message := "a<b 😀 \"q\"" } }
          Clock.sample).body
      = "\x7b\"original\":\"a\\u003cb 😀 \\\"q\\\"\",\"echo\":\"Echo: a\\u003cb 😀 \\\"q\\\"\",\"timestamp\":\"2023-11-14T22:13:20Z\"\x7d\n" :=
  have h : readValue "\x7b \"message\" : \"a\\u003cb \\ud83d\\ude00 \\\"q\\\"\" \x7d trailing"
      = .ok (.object [("message", .string "a<b 😀 \"q\"")], " trailing".data) := by rfl
  ⟨h, (echo_round_trip (Request.make "PUT" "/echo" "") Clock.sample "a<b 😀 \"q\"").2.2.2 _ _ h,
    by decide⟩

/-- Counterexample to C5 as stated: the bodies `{}` (no `message` member), `null` and
`{"message":null}` do not have the documented shape `{message: string}`, yet each POST
is answered 200, with the empty message echoed. -/
theorem echoHandler_accepts_other_shapes :
    matchesDocumentedShape "\x7b\x7d" = false
    ∧ respond echoHandler (Request.make "POST" "/echo" "\x7b\x7d") Clock.sample
        = { status := 200
            header := [("Content-Type", "application/json")]
            body := "\x7b\"original\":\"\",\"echo\":\"Echo: \",\"timestamp\":\"2023-11-14T22:13:20Z\"\x7d\n" }
    ∧ matchesDocumentedShape "null" = false
    ∧ (respond echoHandler (Request.make "POST" "/echo" "null") Clock.sample).status = 200
    ∧ matchesDocumentedShape "\x7b\"message\":null\x7d" = false
    ∧ (respond echoHandler (Request.make "POST" "/echo" "\x7b\"message\":null\x7d")
        Clock.sample).status = 200 := by
  decide

/-- Claim C5, as amended: for every POST request the response has status 200 exactly
when the body starts, after optional white space, with a complete JSON value that is
`null` or an object in which every member whose key names the field `message` (exactly,
or up to case) holds a string or `null` (`accepted`); every other body is answered 400
with the body `Invalid JSON` and a line feed. -/
theorem echoHandler_status_by_body (r : Request) (clk : Clock) (hPost : r.Method = "POST") :
    ((respond echoHandler r clk).status = 200 ↔ accepted r.Body = true)
    ∧ (accepted r.Body = false →
        respond echoHandler r clk
          = { status := 400
              header := [("X-Content-Type-Options", "nosniff"),
                ("Content-Type", "text/plain; charset=utf-8")]
              body := "Invalid JSON\n" }) := by
  by_cases h : accepted r.Body = true
  · have hd := (Decode_snd r.Body { Message := "" }).2 h
    rw [respond_echo_decoded r clk hPost hd]
    simp [h]
  · have h' : accepted r.Body = false := by simpa using h
    have hd := (Decode_snd_isSome r.Body { Message := "" }).2 h'
    rw [respond_echo_decode_error r clk hPost hd]
    simp [h']

/-- Witness of C5 as amended: a `message` that is a number is answered 400, and an
object with an upper-case `MESSAGE` key, other members and trailing text is answered
200. -/
theorem echoHandler_status_by_body_witness :
    (Request.make "POST" "/echo" "\x7b\"message\":5\x7d").Method = "POST"
    ∧ accepted (Request.make "POST" "/echo" "\x7b\"message\":5\x7d").Body = false
    ∧ respond echoHandler (Request.make "POST" "/echo" "\x7b\"message\":5\x7d") Clock.sample
        = { status := 400
            header := [("X-Content-Type-Options", "nosniff"),
              ("Content-Type", "text/plain; charset=utf-8")]
            body := "Invalid JSON\n" }
    ∧ accepted
        (Request.make "POST" "/echo"
          "\x7b\"MESSAGE\":\"x\",\"other\":[1,\x7b\"a\":null\x7d]\x7d tail").Body = true
    ∧ (respond echoHandler
        (Request.make "POST" "/echo"
          "\x7b\"MESSAGE\":\"x\",\"other\":[1,\x7b\"a\":null\x7d]\x7d tail") Clock.sample).status
        = 200 :=
  ⟨by decide, by decide,
    (echoHandler_status_by_body (Request.make "POST" "/echo" "\x7b\"message\":5\x7d") Clock.sample
      (by decide)).2 (by decide),
    by decide,
    (echoHandler_status_by_body
      (Request.make "POST" "/echo"
        "\x7b\"MESSAGE\":\"x\",\"other\":[1,\x7b\"a\":null\x7d]\x7d tail") Clock.sample
      (by decide)).1.2 (by decide)⟩

/-- Claim C6: for every request (any method, any body, any header) and every
clock, `infoHandler` answers 200 with `Content-Type` `application/json` and the body
`{"service":"go-api","version":"1.0.0","go_version":"1.21"}` followed by a line feed,
the members in that order and the third under the key `go_version`; any two requests
get equal responses, and the clock is not read. -/
theorem infoHandler_constant (r r' : Request) (clk clk' : Clock) :
    respond infoHandler r clk
        = { status := 200
            header := [("Content-Type", "application/json")]
            body := "\x7b\"service\":\"go-api\",\"version\":\"1.0.0\",\"go_version\":\"1.21\"\x7d\n" }
      ∧ respond infoHandler r clk = respond infoHandler r' clk'
      ∧ readValue (respond infoHandler r clk).body
          = .ok (.object [("service", .string "go-api"), ("version", .string "1.0.0"),
              ("go_version", .string "1.21")], ['\n'])
      ∧ clockReads infoHandler r clk = 0 := by
  refine ⟨respond_info r clk, ?_, ?_, ?_⟩
  · rw [respond_info, respond_info]
  · rw [respond_info]; exact readValue_infoText
  · simp [clockReads, infoHandler]

/-- Claim C8: every response of `healthHandler` and of `infoHandler`, and every 200
response of `echoHandler`, declares `Content-Type` `application/json`; a response of
`echoHandler` that does not is one of its two errors (405 or 400) and declares plain
text.  The 400 response is written by `http.Error` on a writer whose header was already
set to `application/json`, and what is sent declares plain text. -/
theorem content_type_of_responses (r : Request) (clk : Clock) :
    (respond healthHandler r clk).header.Get "Content-Type" = "application/json"
    ∧ (respond infoHandler r clk).header.Get "Content-Type" = "application/json"
    ∧ ((respond echoHandler r clk).status = 200 →
        (respond echoHandler r clk).header.Get "Content-Type" = "application/json")
    ∧ ((respond echoHandler r clk).header.Get "Content-Type" ≠ "application/json" →
        ((respond echoHandler r clk).status = 405 ∨ (respond echoHandler r clk).status = 400)
        ∧ (respond echoHandler r clk).header.Get "Content-Type" = "text/plain; charset=utf-8")
    ∧ ((respond echoHandler r clk).status = 400 →
        echoHandler ResponseWriter.new r clk
            = (Error (ResponseWriter.new.SetHeader "Content-Type" "application/json")
                "Invalid JSON" StatusBadRequest, clk)
          ∧ (ResponseWriter.new.SetHeader "Content-Type" "application/json").handlerHeader.Get
              "Content-Type" = "application/json"
          ∧ (respond echoHandler r clk).header.Get "Content-Type"
              = "text/plain; charset=utf-8") := by
  refine ⟨by rw [respond_health]; rfl, by rw [respond_info]; rfl, ?_, ?_, ?_⟩
  · intro hs
    rcases respond_echo_cases r clk with h | h | h <;> rw [h] at hs ⊢
    · exact absurd hs (by decide)
    · exact absurd hs (by decide)
    · rfl
  · intro hct
    rcases respond_echo_cases r clk with h | h | h <;> rw [h] at hct ⊢
    · exact ⟨Or.inl rfl, rfl⟩
    · exact ⟨Or.inr rfl, rfl⟩
    · exact absurd rfl hct
  · intro hs
    by_cases h : r.Method = "POST"
    · cases hd : (Decode r.Body { Message := "" }).2 with
      | none =>
        rw [respond_echo_decoded r clk h hd] at hs
        simp at hs
      | some e =>
        have hd' : (Decode r.Body { Message := "" }).2.isSome = true := by rw [hd]; rfl
        refine ⟨echoHandler_decode_error _ r clk h hd', rfl, ?_⟩
        rw [respond_echo_decode_error r clk h hd']
        rfl
    · rw [respond_echo_not_post r clk h] at hs
      exact absurd hs (by decide)

/-- Witness of C8: a well-formed POST is 200 with `application/json`, a truncated body
is 400 with plain text, and a `DELETE` is answered in plain text. -/
theorem content_type_of_responses_witness :
    (respond echoHandler (Request.make "POST" "/echo" helloBody)
      Clock.sample).status = 200
    ∧ (respond echoHandler (Request.make "POST" "/echo" helloBody)
        Clock.sample).header.Get "Content-Type" = "application/json"
    ∧ (respond echoHandler (Request.make "POST" "/echo" "\x7b\"message\":")
        Clock.sample).status = 400
    ∧ (respond echoHandler (Request.make "POST" "/echo" "\x7b\"message\":")
        Clock.sample).header.Get "Content-Type" = "text/plain; charset=utf-8"
    ∧ (respond echoHandler (Request.make "DELETE" "/echo" "")
        Clock.sample).header.Get "Content-Type" ≠ "application/json"
    ∧ (respond echoHandler (Request.make "DELETE" "/echo" "")
        Clock.sample).header.Get "Content-Type" = "text/plain; charset=utf-8" :=
  ⟨by decide,
    (content_type_of_responses (Request.make "POST" "/echo" helloBody)
      Clock.sample).2.2.1 (by decide),
    by decide,
    ((content_type_of_responses (Request.make "POST" "/echo" "\x7b\"message\":")
      Clock.sample).2.2.2.2 (by decide)).2.2,
    by decide,
    ((content_type_of_responses (Request.make "DELETE" "/echo" "")
      Clock.sample).2.2.2.1 (by decide)).2⟩

/-- Claim C9: for every POST request and every two clock readings `t1 <= t2`, running
`echoHandler` on the request at `t1` and again at `t2` gives the same status; when that
is 200 the two bodies are the encodings of records with the same `original` and `echo`
and the timestamps `t1` and `t2`, with `t1 <= t2`.  The response depends only on the
method, the body and the clock reading: requests that agree on these get equal
responses. -/
theorem echoHandler_repeat (r : Request) (clk1 clk2 : Clock) (hPost : r.Method = "POST")
    (hle : clk1.tick clk1.reads ≤ clk2.tick clk2.reads) :
    (respond echoHandler r clk1).status = (respond echoHandler r clk2).status
    ∧ ((respond echoHandler r clk1).status = 200 →
        ∃ (m enc1 enc2 : String),
          EchoResponse.marshal
              { Original := m, Echo := "Echo: " ++ m, Timestamp := clk1.tick clk1.reads }
            = some enc1
          ∧ EchoResponse.marshal
              { Original := m, Echo := "Echo: " ++ m, Timestamp := clk2.tick clk2.reads }
            = some enc2
          ∧ (respond echoHandler r clk1).body = enc1 ++ "\n"
          ∧ (respond echoHandler r clk2).body = enc2 ++ "\n"
          ∧ clk1.tick clk1.reads ≤ clk2.tick clk2.reads)
    ∧ (∀ (r' : Request) (clk' : Clock), r'.Method = r.Method → r'.Body = r.Body →
        clk'.tick clk'.reads = clk1.tick clk1.reads →
        respond echoHandler r' clk' = respond echoHandler r clk1) := by
  cases hd : (Decode r.Body { Message := "" }).2 with
  | none =>
    refine ⟨?_, ?_, ?_⟩
    · rw [respond_echo_decoded r clk1 hPost hd, respond_echo_decoded r clk2 hPost hd]
    · intro _
      refine ⟨(Decode r.Body { Message := "" }).1.Message, _, _,
        EchoResponse.marshal_eq _ _, EchoResponse.marshal_eq _ _, ?_, ?_, hle⟩
      · rw [respond_echo_decoded r clk1 hPost hd]
      · rw [respond_echo_decoded r clk2 hPost hd]
    · intro r' clk' hm hb ht
      rw [respond_echo_decoded r clk1 hPost hd,
        respond_echo_decoded r' clk' (hm.trans hPost) (by rw [hb]; exact hd), hb, ht]
  | some e =>
    have hd' : (Decode r.Body { Message := "" }).2.isSome = true := by rw [hd]; rfl
    refine ⟨?_, ?_, ?_⟩
    · rw [respond_echo_decode_error r clk1 hPost hd', respond_echo_decode_error r clk2 hPost hd']
    · intro hs
      rw [respond_echo_decode_error r clk1 hPost hd'] at hs
      exact absurd hs (by decide)
    · intro r' clk' hm hb _
      rw [respond_echo_decode_error r clk1 hPost hd',
        respond_echo_decode_error r' clk' (hm.trans hPost) (by rw [hb]; exact hd')]

/-- Witness of C9: the same POST on the sample clock and on that clock one reading later
gives two 200 responses that differ in the timestamp only. -/
theorem echoHandler_repeat_witness :
    (Request.make "POST" "/echo" helloBody).Method = "POST"
    ∧ Clock.sample.tick Clock.sample.reads
        ≤ (Clock.sample.Now).2.tick (Clock.sample.Now).2.reads
    ∧ respond echoHandler (Request.make "POST" "/echo" helloBody) Clock.sample
        = { status := 200
            header := [("Content-Type", "application/json")]
            body := helloReply "2023-11-14T22:13:20Z" }
    ∧ respond echoHandler (Request.make "POST" "/echo" helloBody)
          (Clock.sample.Now).2
        = { status := 200
            header := [("Content-Type", "application/json")]
            body := helloReply "2023-11-14T22:13:21Z" }
    ∧ (respond echoHandler (Request.make "POST" "/echo" helloBody)
          Clock.sample).status
        = (respond echoHandler (Request.make "POST" "/echo" helloBody)
          (Clock.sample.Now).2).status :=
  ⟨by decide, by decide, by decide, by decide,
    (echoHandler_repeat (Request.make "POST" "/echo" helloBody) Clock.sample
      (Clock.sample.Now).2 (by decide) (by decide)).1⟩

end GoApi
